import Mathlib

/-
Shallow embedding of `src/pagerank.py` (PageRank: transition model, sampling
estimator, iterative solver).  Python floats are modelled as exact rationals,
the corpus dict as its key list together with its value sets, per-page dicts
as total functions consulted only on keys (junk value 0 elsewhere), and
`random.choice` / `random.choices` as oracle-driven selections from the
concrete lists the code builds.  Exceptions (KeyError, IndexError, the
ValueError from `max` on an empty sequence) and non-termination are both
modelled by `Option`: `none` means the call returns no value.
-/

/-- Pages are the string identifiers used by the Python code. -/
abbrev Page := String

/-- The Python `corpus` dict: `keys` is the key list in dict order (what
`list(corpus.keys())` produces), `nodup` records that dict keys are
distinct, and `links p` is the value set `corpus[p]` for a key `p` (junk on
non-keys: the code evaluates `corpus[p]` only on keys, except where the
KeyError is modelled explicitly). -/
structure Corpus where
  keys : List Page
  nodup : keys.Nodup
  links : Page → Finset Page

/-- The key set of the corpus dict, as a finite set. -/
def Corpus.pages (c : Corpus) : Finset Page := ⟨(c.keys : Multiset Page), c.nodup⟩

lemma mem_pages_iff (c : Corpus) (p : Page) : p ∈ c.pages ↔ p ∈ c.keys := Iff.rfl

lemma pages_card (c : Corpus) : c.pages.card = c.keys.length := rfl

/-- Lines 52-76, `transition_model`.  The loop at lines 68-74 iterates over
every key of `corpus` unconditionally and assigns `transition[pages]` for
each key, so the uniform values written by the sink branch at lines 63-66
are all overwritten; the dict that is returned holds, at every key, the
assignment made by that final loop. -/
def transition_model (c : Corpus) (p : Page) (d : ℚ) : Page → ℚ := fun q =>
  if q ∈ c.pages then
    if q ∈ c.links p then
      d / ((c.links p).card : ℚ) + (1 - d) / (c.pages.card : ℚ)
    else (1 - d) / (c.pages.card : ℚ)
  else 0

/-- A call `transition_model(corpus, page, damping_factor)` as an event that
can raise: line 63 evaluates `corpus[page]`, which raises KeyError when
`page` is not a key (in particular whenever the corpus is empty).  On a key
no other exception is possible: `len(corpus.keys()) ≥ 1` then, and
`len(corpus[page])` is used as a divisor only under `pages in corpus[page]`,
hence only when it is nonzero. -/
def transition_model_run (c : Corpus) (p : Page) (d : ℚ) : Option (Page → ℚ) :=
  if p ∈ c.pages then some (transition_model c p d) else none

/-- Python truthiness of `current_page` at line 91: `None` and the empty
string are the falsy values a page variable can take. -/
def truthy : Option Page → Bool
  | none => false
  | some s => !(s == "")

/-- `random.choice(pop)` driven by an oracle index `k`: the uniform draw is
modelled as an arbitrary in-range index into the list; on an empty list the
call raises IndexError (`none`). -/
def random_choice (pop : List Page) (k : ℕ) : Option Page :=
  pop[k % pop.length]?

/-- Running cumulative sums of the weights, as CPython's
`_accumulate(weights)` inside `random.choices`. -/
def accumulate : List ℚ → ℚ → List ℚ
  | [], _ => []
  | x :: xs, acc => (acc + x) :: accumulate xs (acc + x)

/-- `bisect.bisect_right(cum, u, 0, hi)` on a nondecreasing list: the number
of entries among the first `hi` that are `≤ u`. -/
def bisect_right_le (cum : List ℚ) (u : ℚ) (hi : ℕ) : ℕ :=
  (cum.take hi).countP (fun x => decide (x ≤ u))

/-- `random.choices(pop, weights, k=1)[0]` driven by an oracle `t` (the
value `random()` returns): CPython evaluates
`pop[bisect_right(cum_weights, random() * total, 0, len(pop) - 1)]`, an
index that is always in range, so the call yields an element of `pop`
whenever `pop` is nonempty. -/
def random_choices1 (pop : List Page) (w : List ℚ) (t : ℚ) : Option Page :=
  pop[bisect_right_le (accumulate w 0) (t * w.sum) (pop.length - 1)]?

/-- One advance of `current_page`, lines 91-99.  When `current_page` is
truthy the next page is drawn by `random.choices` from the transition
dict's key list (equal to the corpus key list, in order: both loops of
`transition_model` assign exactly the corpus keys in corpus order) weighted
by the dict's values; otherwise — on the first iteration, or right after a
page whose identifier is the empty string — it is drawn by `random.choice`
from the corpus key list.  The oracle pair supplies the index for
`random.choice` and the `random()` value for `random.choices`. -/
def sample_advance (c : Corpus) (d : ℚ) (cur : Option Page) (r : ℕ × ℚ) : Option Page :=
  if truthy cur then
    match transition_model_run c (cur.getD "") d with
    | none => none
    | some f => random_choices1 c.keys (c.keys.map f) r.2
  else
    random_choice c.keys r.1

/-- The sampling loop, lines 90-103: `k` counts the remaining iterations of
`for _ in range(n)`; each iteration first advances `current_page` and then
adds `1/n` to the new current page's counter. -/
def sample_loop (c : Corpus) (d : ℚ) (n : ℕ) (oracle : ℕ → ℕ × ℚ) :
    ℕ → Option Page → (Page → ℚ) → Option (Page → ℚ)
  | 0, _, s => some s
  | k + 1, cur, s =>
    match sample_advance c d cur (oracle k) with
    | none => none
    | some p => sample_loop c d n oracle k (some p)
        (fun q => if q = p then s q + 1 / (n : ℚ) else s q)

/-- Lines 79-104, `sample_pagerank`: every counter starts at 0,
`current_page` starts as `None`, and the loop body runs `n` times.  When
`n = 0` the expression `1/n` is never evaluated, exactly as `range(0)` runs
no iteration in Python. -/
def sample_pagerank (c : Corpus) (d : ℚ) (n : ℕ) (oracle : ℕ → ℕ × ℚ) :
    Option (Page → ℚ) :=
  sample_loop c d n oracle n none (fun _ => 0)

/-- Lines 119-120: every page's rank is initialised to `1 / pages_number`. -/
def init_rank (c : Corpus) : Page → ℚ := fun p =>
  if p ∈ c.pages then 1 / (c.pages.card : ℚ) else 0

/-- The contribution of `linking_page` (here `q`) to `page` (here `p`)
accumulated by the inner loop at lines 126-132: `old[q] / len(corpus[q])`
when `p ∈ corpus[q]`, plus `old[q] / len(corpus)` when `corpus[q]` is
empty. -/
def link_contrib (c : Corpus) (old : Page → ℚ) (p q : Page) : ℚ :=
  (if p ∈ c.links q then old q / ((c.links q).card : ℚ) else 0) +
    (if (c.links q).card = 0 then old q / (c.pages.card : ℚ) else 0)

/-- One sweep of the outer `for` at lines 124-136: the dict `new_dict`
after the assignment `new_dict[page] = temp` for every page, where `temp`
accumulates the link contributions over all of `corpus`, then
`temp *= damping_factor` and `temp += (1 - damping_factor) / pages_number`. -/
def iterate_step (c : Corpus) (d : ℚ) (old : Page → ℚ) : Page → ℚ := fun p =>
  if p ∈ c.pages then
    (∑ q ∈ c.pages, link_contrib c old p q) * d + (1 - d) / (c.pages.card : ℚ)
  else 0

/-- Python `max` over a list of rationals; `none` models the ValueError it
raises on an empty sequence. -/
def list_max : List ℚ → Option ℚ
  | [] => none
  | x :: xs =>
    match list_max xs with
    | none => some x
    | some m => some (max x m)

/-- Line 138: `max([abs(new_dict[x] - old_dict[x]) for x in old_dict])`;
the keys of `old_dict` are exactly the corpus keys, and each page's new and
old values are paired by the key `x`. -/
def max_diff (c : Corpus) (newR oldR : Page → ℚ) : Option ℚ :=
  list_max (c.keys.map fun x => |newR x - oldR x|)

/-- Lines 138-141: the solver leaves the loop exactly when the maximal
per-page difference is strictly below 0.001.  On an empty corpus line 138
raises instead of producing a maximum; `converged` is then `false`, and the
surrounding loop (which can then never leave) models the raised ValueError
by returning no value, see `iterate_loop`. -/
def converged (c : Corpus) (newR oldR : Page → ℚ) : Bool :=
  match max_diff c newR oldR with
  | some m => decide (m < 1 / 1000)
  | none => false

/-- The `while True` loop of lines 123-142, with explicit fuel standing for
the unbounded iteration (exhausted fuel, like the ValueError on an empty
corpus, yields `none`: the call returns no value).  After `break` the
function returns `old_dict` — the ranks of the previous iteration, since
`old_dict = new_dict.copy()` runs only on the `else` branch. -/
def iterate_loop (c : Corpus) (d : ℚ) : ℕ → (Page → ℚ) → Option (Page → ℚ)
  | 0, _ => none
  | fuel + 1, old =>
    if converged c (iterate_step c d old) old then some old
    else iterate_loop c d fuel (iterate_step c d old)

/-- Lines 106-144, `iterate_pagerank`. -/
def iterate_pagerank (c : Corpus) (d : ℚ) (fuel : ℕ) : Option (Page → ℚ) :=
  iterate_loop c d fuel (init_rank c)

/-- `transition_model` with the corpus state threaded explicitly: the body
only ever reads `corpus` (lines 63-74), so the state component out equals
the state in. -/
def transition_model_state (c : Corpus) (p : Page) (d : ℚ) : (Page → ℚ) × Corpus :=
  (transition_model c p d, c)

/-- The sampling loop with the corpus state `g` threaded explicitly through
every iteration: the body of `for _ in range(n)` (lines 90-102) reads `g`
but contains no assignment to it, so each recursive call passes `g`
unchanged. -/
def sample_loop_state (d : ℚ) (n : ℕ) (oracle : ℕ → ℕ × ℚ) :
    ℕ → Option Page → (Page → ℚ) → Corpus → Option ((Page → ℚ) × Corpus)
  | 0, _, s, g => some (s, g)
  | k + 1, cur, s, g =>
    match sample_advance g d cur (oracle k) with
    | none => none
    | some p => sample_loop_state d n oracle k (some p)
        (fun q => if q = p then s q + 1 / (n : ℚ) else s q) g

/-- `sample_pagerank` with the corpus state threaded explicitly. -/
def sample_pagerank_state (c : Corpus) (d : ℚ) (n : ℕ) (oracle : ℕ → ℕ × ℚ) :
    Option ((Page → ℚ) × Corpus) :=
  sample_loop_state d n oracle n none (fun _ => 0) c

/-- The iteration loop with the corpus state `g` threaded explicitly: the
body of `while True` (lines 123-142) reads `g` but contains no assignment
to it, so each recursive call passes `g` unchanged. -/
def iterate_loop_state (d : ℚ) : ℕ → (Page → ℚ) → Corpus → Option ((Page → ℚ) × Corpus)
  | 0, _, _ => none
  | fuel + 1, old, g =>
    if converged g (iterate_step g d old) old then some (old, g)
    else iterate_loop_state d fuel (iterate_step g d old) g

/-- `iterate_pagerank` with the corpus state threaded explicitly. -/
def iterate_pagerank_state (c : Corpus) (d : ℚ) (fuel : ℕ) :
    Option ((Page → ℚ) × Corpus) :=
  iterate_loop_state d fuel (init_rank c) c

/-! ### Concrete corpora used to evaluate the code at specific inputs -/

/-- The graph `{A: {}, B: {A}}`: `A` is a sink. -/
def corpusC1 : Corpus := ⟨["A", "B"], by decide, fun p => if p = "B" then {"A"} else ∅⟩

/-- The graph `{A: {}, B: {A}}`: `A` is a sink. -/
def corpusC2 : Corpus := ⟨["A", "B"], by decide, fun p => if p = "B" then {"A"} else ∅⟩

/-- The graph `{A: {}, B: {A}}`: `A` is a sink. -/
def corpusC3 : Corpus := ⟨["A", "B"], by decide, fun p => if p = "B" then {"A"} else ∅⟩

/-- The graph `{A: {B}, B: {A}}`: a closed two-page cycle. -/
def corpusC4 : Corpus := ⟨["A", "B"], by decide, fun p => if p = "A" then {"B"} else {"A"}⟩

/-- The graph `{A: {A}}`: a single page linking to itself. -/
def corpusC5 : Corpus := ⟨["A"], by decide, fun _ => {"A"}⟩

/-- The graph `{A: {B}, B: {B}}`: all links point to `B`. -/
def corpusC6 : Corpus := ⟨["A", "B"], by decide, fun _ => {"B"}⟩

/-- The graph `{A: {}}`: a single sink page. -/
def corpusC7 : Corpus := ⟨["A"], by decide, fun _ => ∅⟩

/-- The graph `{A: {A}}`: a single page linking to itself. -/
def corpusC8 : Corpus := ⟨["A"], by decide, fun _ => {"A"}⟩

/-- A graph containing a page whose identifier is the empty string. -/
def corpusC10 : Corpus := ⟨["", "A"], by decide, fun _ => {"A"}⟩

/-! ### Basic facts about the embedding -/

lemma pages_nonempty_iff (c : Corpus) : c.pages.Nonempty ↔ c.keys ≠ [] := by
  constructor
  · rintro ⟨p, hp⟩ h
    rw [mem_pages_iff, h] at hp
    exact (List.not_mem_nil p) hp
  · intro h
    obtain ⟨p, hp⟩ := List.exists_mem_of_ne_nil _ h
    exact ⟨p, (mem_pages_iff c p).2 hp⟩

lemma random_choice_mem (pop : List Page) (k : ℕ) (h : pop ≠ []) :
    ∃ p, random_choice pop k = some p ∧ p ∈ pop := by
  have hlen : 0 < pop.length := List.length_pos.2 h
  have hidx : k % pop.length < pop.length := Nat.mod_lt _ hlen
  exact ⟨pop[k % pop.length], by simp [random_choice, List.getElem?_eq_getElem hidx],
    List.getElem_mem hidx⟩

lemma bisect_right_le_le (cum : List ℚ) (u : ℚ) (hi : ℕ) :
    bisect_right_le cum u hi ≤ hi := by
  calc (cum.take hi).countP (fun x => decide (x ≤ u)) ≤ (cum.take hi).length :=
        List.countP_le_length _
    _ ≤ hi := by simp [List.length_take]

lemma random_choices1_mem (pop : List Page) (w : List ℚ) (t : ℚ) (h : pop ≠ []) :
    ∃ p, random_choices1 pop w t = some p ∧ p ∈ pop := by
  have hlen : 0 < pop.length := List.length_pos.2 h
  have hidx : bisect_right_le (accumulate w 0) (t * w.sum) (pop.length - 1) < pop.length :=
    lt_of_le_of_lt (bisect_right_le_le _ _ _) (Nat.sub_lt hlen one_pos)
  exact ⟨pop[bisect_right_le (accumulate w 0) (t * w.sum) (pop.length - 1)],
    by simp [random_choices1, List.getElem?_eq_getElem hidx], List.getElem_mem hidx⟩

lemma sample_advance_mem (c : Corpus) (d : ℚ) (cur : Option Page) (r : ℕ × ℚ)
    (hne : c.pages.Nonempty) (hcur : ∀ p, cur = some p → p ∈ c.pages) :
    ∃ p, sample_advance c d cur r = some p ∧ p ∈ c.pages := by
  have hkeys : c.keys ≠ [] := (pages_nonempty_iff c).1 hne
  cases hc : truthy cur with
  | false =>
    obtain ⟨p, hp, hmem⟩ := random_choice_mem c.keys r.1 hkeys
    exact ⟨p, by simp [sample_advance, hc, hp], (mem_pages_iff c p).2 hmem⟩
  | true =>
    cases cur with
    | none => simp [truthy] at hc
    | some p₀ =>
      have hmem₀ : p₀ ∈ c.pages := hcur p₀ rfl
      obtain ⟨p, hp, hmem⟩ :=
        random_choices1_mem c.keys (c.keys.map (transition_model c p₀ d)) r.2 hkeys
      exact ⟨p, by simp [sample_advance, hc, transition_model_run, hmem₀, hp],
        (mem_pages_iff c p).2 hmem⟩

lemma sum_update (P : Finset Page) (s : Page → ℚ) (p : Page) (a : ℚ) (hp : p ∈ P) :
    (∑ q ∈ P, if q = p then s q + a else s q) = (∑ q ∈ P, s q) + a := by
  have h : ∀ q ∈ P, (if q = p then s q + a else s q) = s q + (if q = p then a else 0) := by
    intro q _
    split_ifs <;> simp
  rw [Finset.sum_congr rfl h, Finset.sum_add_distrib, Finset.sum_ite_eq' P p fun _ => a,
    if_pos hp]

lemma sample_loop_spec (c : Corpus) (d : ℚ) (n : ℕ) (oracle : ℕ → ℕ × ℚ)
    (hne : c.pages.Nonempty) :
    ∀ (k : ℕ) (cur : Option Page) (s : Page → ℚ),
      (∀ p, cur = some p → p ∈ c.pages) →
      ∃ s', sample_loop c d n oracle k cur s = some s' ∧
        (∑ p ∈ c.pages, s' p) = (∑ p ∈ c.pages, s p) + (k : ℚ) * (1 / (n : ℚ)) ∧
        ∀ q, q ∉ c.pages → s' q = s q := by
  intro k
  induction k with
  | zero =>
    intro cur s _
    exact ⟨s, rfl, by simp, fun _ _ => rfl⟩
  | succ k ih =>
    intro cur s hcur
    obtain ⟨p, hp, hmem⟩ := sample_advance_mem c d cur (oracle k) hne hcur
    obtain ⟨s', hs', hsum, hout⟩ :=
      ih (some p) (fun q => if q = p then s q + 1 / (n : ℚ) else s q)
        (fun q hq => Option.some.inj hq ▸ hmem)
    refine ⟨s', ?_, ?_, ?_⟩
    · simp only [sample_loop, hp, hs']
    · rw [hsum, sum_update c.pages s p _ hmem]
      push_cast
      ring
    · intro q hq
      rw [hout q hq, if_neg]
      intro hqp
      rw [hqp] at hq
      exact hq hmem

lemma list_max_eq_none_iff : ∀ l : List ℚ, list_max l = none ↔ l = [] := by
  intro l
  cases l with
  | nil => simp [list_max]
  | cons x xs =>
    simp only [list_max]
    cases list_max xs <;> simp

lemma list_max_lt_iff :
    ∀ (l : List ℚ) (m t : ℚ), list_max l = some m → (m < t ↔ ∀ x ∈ l, x < t) := by
  intro l
  induction l with
  | nil => intro m t h; simp [list_max] at h
  | cons x xs ih =>
    intro m t h
    simp only [list_max] at h
    cases hxs : list_max xs with
    | none =>
      rw [hxs] at h
      have hnil : xs = [] := (list_max_eq_none_iff xs).1 hxs
      rw [Option.some.injEq] at h
      subst h hnil
      simp
    | some y =>
      rw [hxs] at h
      rw [Option.some.injEq] at h
      subst h
      rw [max_lt_iff, ih y t hxs]
      simp only [List.mem_cons]
      constructor
      · rintro ⟨h1, h2⟩ z (rfl | hz)
        · exact h1
        · exact h2 z hz
      · intro hz
        exact ⟨hz x (Or.inl rfl), fun z hzz => hz z (Or.inr hzz)⟩

lemma converged_iff (c : Corpus) (newR oldR : Page → ℚ) (hne : c.pages.Nonempty) :
    converged c newR oldR = true ↔ ∀ p ∈ c.pages, |newR p - oldR p| < 1 / 1000 := by
  have hkeys : c.keys ≠ [] := (pages_nonempty_iff c).1 hne
  have hmap : (c.keys.map fun x => |newR x - oldR x|) ≠ [] := by
    simpa using hkeys
  cases hm : list_max (c.keys.map fun x => |newR x - oldR x|) with
  | none => exact absurd ((list_max_eq_none_iff _).1 hm) hmap
  | some m =>
    unfold converged max_diff
    rw [hm]
    simp only [decide_eq_true_eq]
    rw [list_max_lt_iff _ m _ hm]
    constructor
    · intro h p hp
      exact h _ (List.mem_map_of_mem _ ((mem_pages_iff c p).1 hp))
    · intro h x hx
      obtain ⟨p, hp, rfl⟩ := List.mem_map.1 hx
      exact h p ((mem_pages_iff c p).2 hp)

lemma iterate_loop_converged (c : Corpus) (d : ℚ) (old : Page → ℚ) (fuel : ℕ)
    (h : converged c (iterate_step c d old) old = true) :
    iterate_loop c d (fuel + 1) old = some old := by
  simp [iterate_loop, h]

lemma sample_loop_state_snd (d : ℚ) (n : ℕ) (oracle : ℕ → ℕ × ℚ) :
    ∀ (k : ℕ) (cur : Option Page) (s : Page → ℚ) (g : Corpus) (r : (Page → ℚ) × Corpus),
      sample_loop_state d n oracle k cur s g = some r → r.2 = g := by
  intro k
  induction k with
  | zero =>
    intro cur s g r h
    rw [sample_loop_state, Option.some.injEq] at h
    rw [← h]
  | succ k ih =>
    intro cur s g r h
    rw [sample_loop_state] at h
    cases hadv : sample_advance g d cur (oracle k) with
    | none => rw [hadv] at h; exact absurd h (by simp)
    | some p =>
      rw [hadv] at h
      exact ih _ _ _ _ h

lemma iterate_loop_state_snd (d : ℚ) :
    ∀ (fuel : ℕ) (old : Page → ℚ) (g : Corpus) (r : (Page → ℚ) × Corpus),
      iterate_loop_state d fuel old g = some r → r.2 = g := by
  intro fuel
  induction fuel with
  | zero =>
    intro old g r h
    exact absurd h (by simp [iterate_loop_state])
  | succ fuel ih =>
    intro old g r h
    rw [iterate_loop_state] at h
    by_cases hc : converged g (iterate_step g d old) old = true
    · rw [if_pos hc, Option.some.injEq] at h
      rw [← h]
    · rw [if_neg hc] at h
      exact ih _ _ _ h

lemma link_contrib_sum (c : Corpus) (old : Page → ℚ) (q : Page)
    (hne : c.pages.Nonempty) (hsub : c.links q ⊆ c.pages) :
    (∑ p ∈ c.pages, link_contrib c old p q) = old q := by
  have hN : (c.pages.card : ℚ) ≠ 0 := Nat.cast_ne_zero.2 hne.card_pos.ne'
  unfold link_contrib
  rw [Finset.sum_add_distrib, Finset.sum_ite_mem, Finset.inter_eq_right.2 hsub,
    Finset.sum_const, Finset.sum_const, nsmul_eq_mul, nsmul_eq_mul]
  by_cases hq : (c.links q).card = 0
  · rw [hq, if_pos rfl, Nat.cast_zero, zero_mul, zero_add, mul_comm,
      div_mul_cancel₀ _ hN]
  · rw [if_neg hq, mul_zero, add_zero, mul_comm,
      div_mul_cancel₀ _ (Nat.cast_ne_zero.2 hq : ((c.links q).card : ℚ) ≠ 0)]

lemma iterate_step_sum (c : Corpus) (d : ℚ) (old : Page → ℚ)
    (hne : c.pages.Nonempty) (hclosed : ∀ q ∈ c.pages, c.links q ⊆ c.pages) :
    (∑ p ∈ c.pages, iterate_step c d old p) = (∑ q ∈ c.pages, old q) * d + (1 - d) := by
  have hN : (c.pages.card : ℚ) ≠ 0 := Nat.cast_ne_zero.2 hne.card_pos.ne'
  have h1 : ∀ p ∈ c.pages, iterate_step c d old p
      = (∑ q ∈ c.pages, link_contrib c old p q) * d + (1 - d) / (c.pages.card : ℚ) := by
    intro p hp
    simp only [iterate_step]
    rw [if_pos hp]
  calc ∑ p ∈ c.pages, iterate_step c d old p
      = ∑ p ∈ c.pages, ((∑ q ∈ c.pages, link_contrib c old p q) * d
          + (1 - d) / (c.pages.card : ℚ)) := Finset.sum_congr rfl h1
    _ = (∑ p ∈ c.pages, ∑ q ∈ c.pages, link_contrib c old p q) * d
          + (c.pages.card : ℚ) * ((1 - d) / (c.pages.card : ℚ)) := by
        rw [Finset.sum_add_distrib, ← Finset.sum_mul, Finset.sum_const, nsmul_eq_mul]
    _ = (∑ q ∈ c.pages, old q) * d + (1 - d) := by
        rw [Finset.sum_comm, Finset.sum_congr rfl
            (fun q hq => link_contrib_sum c old q hne (hclosed q hq)),
          mul_comm ((c.pages.card : ℚ)), div_mul_cancel₀ _ hN]

/-! ### Claims -/

/-- C1.  The spec claims that for a page with an empty out-link set the
transition model returns the uniform distribution `1/|graph|` over all
pages.  The code does not: the loop at lines 68-74 overwrites the uniform
values written at lines 63-66, so on the graph `{A: {}, B: {A}}` with
damping 0.85 the distribution for the sink `A` assigns `(1-0.85)/2 = 3/40`
to every page instead of `1/2`.  This theorem evaluates the code at that
failing input. -/
theorem C1_sink_distribution_not_uniform :
    corpusC1.links "A" = ∅ ∧ corpusC1.pages.card = 2 ∧
    transition_model corpusC1 "A" (17 / 20) "A" = 3 / 40 ∧
    transition_model corpusC1 "A" (17 / 20) "B" = 3 / 40 ∧
    (3 / 40 : ℚ) ≠ 1 / 2 := by
  refine ⟨by simp [corpusC1], rfl, ?_, ?_, by norm_num⟩
  · simp [transition_model, corpusC1, Corpus.pages]
    norm_num
  · simp [transition_model, corpusC1, Corpus.pages]
    norm_num

/-- C2.  The spec claims the transition model's output always sums to 1.0
within 1e-9 with non-negative entries.  On the graph `{A: {}, B: {A}}` with
damping 0.85 and the sink page `A`, the code's output sums to
`(1-0.85) = 3/20`, which is not within 1e-9 of 1: the sink branch's uniform
fill is overwritten by the unconditional second loop.  This theorem
evaluates the code at that failing input. -/
theorem C2_sink_distribution_sum_not_one :
    (∑ p ∈ corpusC2.pages, transition_model corpusC2 "A" (17 / 20) p) = 3 / 20 ∧
    ¬(|(3 / 20 : ℚ) - 1| ≤ 1 / 1000000000) := by
  constructor
  · simp [transition_model, corpusC2, Corpus.pages, Finset.sum]
    norm_num
  · norm_num [abs_le]

/-- C3.  In the iterative solver, every rank is initialised to `1/|graph|`,
and one update sweep computes, for every page `p` of the graph,
`new[p] = (1-damping)/|graph| + damping * (Σ over q linking to p of
old[q]/|out-links(q)| + Σ over sink pages q of old[q]/|graph|)`: the sink
contribution sits inside the damped sum, i.e. a sink is treated as linking
to every page with weight `old[q]/|graph|`. -/
theorem C3_iterative_update_formula (c : Corpus) (d : ℚ) (old : Page → ℚ) (p : Page)
    (hp : p ∈ c.pages) :
    init_rank c p = 1 / (c.pages.card : ℚ) ∧
    iterate_step c d old p
      = (1 - d) / (c.pages.card : ℚ)
        + d * ((∑ q ∈ c.pages.filter fun q => p ∈ c.links q,
              old q / ((c.links q).card : ℚ))
            + ∑ q ∈ c.pages.filter fun q => c.links q = ∅,
              old q / (c.pages.card : ℚ)) := by
  constructor
  · simp only [init_rank]
    rw [if_pos hp]
  · simp only [iterate_step]
    rw [if_pos hp]
    unfold link_contrib
    rw [Finset.sum_add_distrib, Finset.sum_filter, Finset.sum_filter]
    simp only [Finset.card_eq_zero]
    ring

/-- C3, witness: the formula instantiated on the concrete graph
`{A: {}, B: {A}}` with damping 0.85, uniform old ranks and page `A`. -/
theorem C3_iterative_update_formula_witness :
    ("A" ∈ corpusC3.pages) ∧
    (init_rank corpusC3 "A" = 1 / (corpusC3.pages.card : ℚ) ∧
      iterate_step corpusC3 (17 / 20) (fun _ => 1 / 2) "A"
        = (1 - 17 / 20) / (corpusC3.pages.card : ℚ)
          + (17 / 20) *
            ((∑ q ∈ corpusC3.pages.filter fun q => "A" ∈ corpusC3.links q,
                (fun _ => (1 / 2 : ℚ)) q / ((corpusC3.links q).card : ℚ))
              + ∑ q ∈ corpusC3.pages.filter fun q => corpusC3.links q = ∅,
                (fun _ => (1 / 2 : ℚ)) q / (corpusC3.pages.card : ℚ))) :=
  ⟨by decide, C3_iterative_update_formula corpusC3 (17 / 20) (fun _ => 1 / 2) "A" (by decide)⟩

/-- C4.  One update sweep of the iterative solver preserves total rank
mass: for a non-empty graph whose out-link sets stay inside the key set
(the spec's closure invariant) and any damping factor in (0,1), if the old
ranks sum to 1 then the new ranks sum to exactly 1 (hence certainly within
1e-9 of 1.0). -/
theorem C4_rank_mass_conservation (c : Corpus) (d : ℚ) (old : Page → ℚ)
    (hne : c.pages.Nonempty) (hclosed : ∀ q ∈ c.pages, c.links q ⊆ c.pages)
    (hd0 : 0 < d) (hd1 : d < 1) (hold : (∑ q ∈ c.pages, old q) = 1) :
    (∑ p ∈ c.pages, iterate_step c d old p) = 1 := by
  rw [iterate_step_sum c d old hne hclosed, hold]
  ring

/-- C4, witness: mass conservation on the two-page cycle `{A: {B}, B: {A}}`
with damping 0.85 and uniform old ranks. -/
theorem C4_rank_mass_conservation_witness :
    corpusC4.pages.Nonempty ∧
    (∀ q ∈ corpusC4.pages, corpusC4.links q ⊆ corpusC4.pages) ∧
    (0 : ℚ) < 17 / 20 ∧ (17 / 20 : ℚ) < 1 ∧
    (∑ q ∈ corpusC4.pages, (fun _ => (1 / 2 : ℚ)) q) = 1 ∧
    (∑ p ∈ corpusC4.pages, iterate_step corpusC4 (17 / 20) (fun _ => 1 / 2) p) = 1 := by
  have hold : (∑ q ∈ corpusC4.pages, (fun _ => (1 / 2 : ℚ)) q) = 1 := by
    simp [corpusC4, Corpus.pages, Finset.sum]
    norm_num
  exact ⟨⟨"A", by decide⟩, by decide, by norm_num, by norm_num, hold,
    C4_rank_mass_conservation corpusC4 (17 / 20) (fun _ => 1 / 2) ⟨"A", by decide⟩
      (by decide) (by norm_num) (by norm_num) hold⟩

/-- C5, counterexample.  The claim says convergence is declared exactly
when every page satisfies `abs(new - old) <= 0.001`.  On the one-page graph
`{A: {A}}` with `new = 0.001` and `old = 0` the sole page satisfies the
`≤ 0.001` bound, yet the code (line 139: `difference < 0.001`, strict) does
not declare convergence. -/
theorem C5_counterexample :
    corpusC5.keys = ["A"] ∧
    |(1 / 1000 : ℚ) - 0| ≤ 1 / 1000 ∧
    converged corpusC5 (fun _ => 1 / 1000) (fun _ => 0) = false := by
  refine ⟨rfl, by norm_num [abs_le], ?_⟩
  simp only [converged, max_diff, corpusC5, List.map, list_max]
  norm_num [abs_lt]

/-- C5, amended.  The convergence test declares convergence exactly when,
for every page of the graph, `abs(new[page] - old[page]) < 0.001` — a
strict inequality, not `≤` — pairing each page's new and old values by the
page identifier `x` at line 138. -/
theorem C5_convergence_strict_maxnorm (c : Corpus) (newR oldR : Page → ℚ)
    (hne : c.pages.Nonempty) :
    converged c newR oldR = true ↔ ∀ p ∈ c.pages, |newR p - oldR p| < 1 / 1000 :=
  converged_iff c newR oldR hne

/-- C5, witness: the amended equivalence instantiated on `{A: {A}}` with
equal new and old ranks. -/
theorem C5_convergence_strict_maxnorm_witness :
    corpusC5.pages.Nonempty ∧
    (converged corpusC5 (fun _ => 0) (fun _ => 0) = true ↔
      ∀ p ∈ corpusC5.pages, |(fun _ => (0 : ℚ)) p - (fun _ => (0 : ℚ)) p| < 1 / 1000) :=
  ⟨⟨"A", by decide⟩,
    C5_convergence_strict_maxnorm corpusC5 (fun _ => 0) (fun _ => 0) ⟨"A", by decide⟩⟩

/-- C6, counterexample.  The claim says that when the convergence test
succeeds the solver returns the newly computed ranks.  On `{A: {B}, B: {B}}`
with damping 0.001 the very first sweep converges (max difference 1/2000),
the newly computed rank of `A` is `999/2000`, yet the call returns the
previous ranks: `A` maps to `1/2`. -/
theorem C6_counterexample :
    converged corpusC6 (iterate_step corpusC6 (1 / 1000) (init_rank corpusC6))
      (init_rank corpusC6) = true ∧
    iterate_step corpusC6 (1 / 1000) (init_rank corpusC6) "A" = 999 / 2000 ∧
    (iterate_pagerank corpusC6 (1 / 1000) 5).map (fun r => r "A") = some (1 / 2) ∧
    (1 / 2 : ℚ) ≠ 999 / 2000 := by
  have h1 : converged corpusC6 (iterate_step corpusC6 (1 / 1000) (init_rank corpusC6))
      (init_rank corpusC6) = true := by
    simp [converged, max_diff, list_max, iterate_step, init_rank, link_contrib,
      corpusC6, Corpus.pages, Finset.sum]
    norm_num [abs_lt]
  have h2 : iterate_pagerank corpusC6 (1 / 1000) 5 = some (init_rank corpusC6) :=
    iterate_loop_converged corpusC6 (1 / 1000) (init_rank corpusC6) 4 h1
  refine ⟨h1, ?_, ?_, by norm_num⟩
  · simp [iterate_step, init_rank, link_contrib, corpusC6, Corpus.pages, Finset.sum]
    norm_num
  · rw [h2]
    simp [init_rank, corpusC6, Corpus.pages]

/-- C6, amended.  When the convergence test succeeds, the solver returns
`old_dict` — the previous iteration's ranks — not the newly computed
`new_dict`: the `break` at line 140 precedes the `old_dict = new_dict.copy()`
assignment, and line 144 returns `old_dict`. -/
theorem C6_returns_previous_ranks (c : Corpus) (d : ℚ) (old : Page → ℚ) (fuel : ℕ)
    (h : converged c (iterate_step c d old) old = true) :
    iterate_loop c d (fuel + 1) old = some old :=
  iterate_loop_converged c d old fuel h

/-- C6, witness: the amended statement instantiated on `{A: {B}, B: {B}}`
with damping 0.001 from the uniform initial ranks. -/
theorem C6_returns_previous_ranks_witness :
    converged corpusC6 (iterate_step corpusC6 (1 / 1000) (init_rank corpusC6))
      (init_rank corpusC6) = true ∧
    iterate_loop corpusC6 (1 / 1000) 1 (init_rank corpusC6)
      = some (init_rank corpusC6) := by
  have h1 : converged corpusC6 (iterate_step corpusC6 (1 / 1000) (init_rank corpusC6))
      (init_rank corpusC6) = true := by
    simp [converged, max_diff, list_max, iterate_step, init_rank, link_contrib,
      corpusC6, Corpus.pages, Finset.sum]
    norm_num [abs_lt]
  exact ⟨h1, C6_returns_previous_ranks corpusC6 (1 / 1000) (init_rank corpusC6) 0 h1⟩

/-- C7, counterexample.  The claim says every component validates its
preconditions at entry and fails fast.  The code performs no validation:
on the one-page graph `{A: {}}` the transition model accepts the damping
factor 2 (outside (0,1)) and returns a mapping whose value at `A` is the
negative number -1, and the sampling estimator accepts the sample count 0
(below 1) and returns the all-zero mapping — no error in either case. -/
theorem C7_counterexample :
    (transition_model_run corpusC7 "A" 2).map (fun f => f "A") = some (-1) ∧
    (sample_pagerank corpusC7 2 0 (fun _ => (0, 0))).map (fun s => s "A") = some 0 := by
  constructor
  · simp [transition_model_run, transition_model, corpusC7, Corpus.pages]
    norm_num
  · rfl

/-- C7, amended.  No component validates preconditions: whenever `page` is
a key of the graph the transition model returns a result for any damping
factor whatsoever (never an error), and the sampling estimator called with
sample count 0 returns the all-zero mapping instead of rejecting it;
invalid inputs surface, if at all, only as raw lookup or division errors
inside the computation. -/
theorem C7_no_precondition_validation :
    (∀ (c : Corpus) (p : Page) (d : ℚ), p ∈ c.pages →
      transition_model_run c p d = some (transition_model c p d)) ∧
    (∀ (c : Corpus) (d : ℚ) (oracle : ℕ → ℕ × ℚ),
      sample_pagerank c d 0 oracle = some (fun _ => 0)) :=
  ⟨fun c p d hp => by rw [transition_model_run, if_pos hp], fun _ _ _ => rfl⟩

/-- C7, witness: the amended statement instantiated on `{A: {}}` with the
out-of-range damping factor 2 and sample count 0. -/
theorem C7_no_precondition_validation_witness :
    ("A" ∈ corpusC7.pages) ∧
    transition_model_run corpusC7 "A" 2 = some (transition_model corpusC7 "A" 2) ∧
    sample_pagerank corpusC7 2 0 (fun _ => (0, 0)) = some (fun _ => 0) :=
  ⟨by decide, C7_no_precondition_validation.1 corpusC7 "A" 2 (by decide),
    C7_no_precondition_validation.2 corpusC7 2 (fun _ => (0, 0))⟩

/-- C8.  For a non-empty graph, damping in (0,1) and sample count `n ≥ 1`,
the sampling estimator terminates with a result (`some`), after exactly the
`n` iterations of its loop, each of which records one visit of weight `1/n`
on some page of the graph; the returned counters are zero off the key set
and sum over the pages to `n * (1/n) = 1` exactly (hence within any
tolerance of 1.0).  The second conjunct isolates the per-step fact: from a
page of the graph the advance always yields exactly one page of the
graph. -/
theorem C8_sampling_terminates_sum_one (c : Corpus) (d : ℚ) (n : ℕ)
    (oracle : ℕ → ℕ × ℚ) (hne : c.pages.Nonempty) (hd0 : 0 < d) (hd1 : d < 1)
    (hn : 1 ≤ n) :
    (∃ s, sample_pagerank c d n oracle = some s ∧
      (∑ p ∈ c.pages, s p) = 1 ∧ ∀ q, q ∉ c.pages → s q = 0) ∧
    ∀ (r : ℕ × ℚ) (p : Page), p ∈ c.pages →
      ∃ p', sample_advance c d (some p) r = some p' ∧ p' ∈ c.pages := by
  constructor
  · obtain ⟨s', h1, h2, h3⟩ := sample_loop_spec c d n oracle hne n none (fun _ => 0)
      (fun p hp => absurd hp (by simp))
    refine ⟨s', h1, ?_, fun q hq => h3 q hq⟩
    have hn' : (n : ℚ) ≠ 0 := Nat.cast_ne_zero.2 (by omega)
    rw [h2, Finset.sum_const_zero, zero_add, mul_one_div, div_self hn']
  · intro r p hp
    exact sample_advance_mem c d (some p) r hne (fun q hq => Option.some.inj hq ▸ hp)

/-- C8, witness: the sampling estimator on `{A: {A}}` with damping 0.85,
sample count 2 and the constant oracle. -/
theorem C8_sampling_terminates_sum_one_witness :
    corpusC8.pages.Nonempty ∧ (0 : ℚ) < 17 / 20 ∧ (17 / 20 : ℚ) < 1 ∧ 1 ≤ 2 ∧
    ((∃ s, sample_pagerank corpusC8 (17 / 20) 2 (fun _ => (0, 0)) = some s ∧
        (∑ p ∈ corpusC8.pages, s p) = 1 ∧ ∀ q, q ∉ corpusC8.pages → s q = 0) ∧
      ∀ (r : ℕ × ℚ) (p : Page), p ∈ corpusC8.pages →
        ∃ p', sample_advance corpusC8 (17 / 20) (some p) r = some p' ∧
          p' ∈ corpusC8.pages) :=
  ⟨⟨"A", by decide⟩, by norm_num, by norm_num, by norm_num,
    C8_sampling_terminates_sum_one corpusC8 (17 / 20) 2 (fun _ => (0, 0))
      ⟨"A", by decide⟩ (by norm_num) (by norm_num) (by norm_num)⟩

/-- C9.  None of the three operations mutates the input graph: with the
corpus state threaded explicitly through each body (which only reads it),
the corpus component of whatever each call returns is the input corpus —
key set and out-link sets untouched. -/
theorem C9_graph_never_mutated (c : Corpus) (p : Page) (d : ℚ) (n fuel : ℕ)
    (oracle : ℕ → ℕ × ℚ) :
    (transition_model_state c p d).2 = c ∧
    (sample_pagerank_state c d n oracle).map Prod.snd
      = (sample_pagerank_state c d n oracle).map (fun _ => c) ∧
    (iterate_pagerank_state c d fuel).map Prod.snd
      = (iterate_pagerank_state c d fuel).map (fun _ => c) := by
  refine ⟨rfl, ?_, ?_⟩
  · cases h : sample_pagerank_state c d n oracle with
    | none => rfl
    | some r =>
      have := sample_loop_state_snd d n oracle n none (fun _ => 0) c r h
      simp [this]
  · cases h : iterate_pagerank_state c d fuel with
    | none => rfl
    | some r =>
      have := iterate_loop_state_snd d fuel (init_rank c) c r h
      simp [this]

/-- C10.  At line 91 the transition-model-based advance runs only when
`current_page` is truthy: the empty-string identifier is falsy, so on a
graph containing the page `""`, every step taken while the current page is
`""` draws the next page by `random.choice` uniformly from all corpus keys
instead of from the transition model's distribution; every non-empty
identifier is truthy and takes the transition-model branch. -/
theorem C10_empty_string_uniform_draw (c : Corpus) (d : ℚ) (r : ℕ × ℚ)
    (h : "" ∈ c.pages) :
    truthy (some "") = false ∧
    sample_advance c d (some "") r = random_choice c.keys r.1 ∧
    ∀ p : Page, p ≠ "" → truthy (some p) = true := by
  refine ⟨by decide, ?_, ?_⟩
  · simp [sample_advance, truthy]
  · intro p hp
    simp [truthy, hp]

/-- C10, witness: the empty-string behaviour on the graph
`{"": {A}, A: {A}}`. -/
theorem C10_empty_string_uniform_draw_witness :
    ("" ∈ corpusC10.pages) ∧
    (truthy (some "") = false ∧
      sample_advance corpusC10 (17 / 20) (some "") (1, 1 / 2)
        = random_choice corpusC10.keys 1 ∧
      ∀ p : Page, p ≠ "" → truthy (some p) = true) :=
  ⟨by decide, C10_empty_string_uniform_draw corpusC10 (17 / 20) (1, 1 / 2) (by decide)⟩
